import Mathlib

/-!
Verification of the byte-patching core of `patch_remove_pits.py`:
the Game Genie code decoder, the CPU-address-to-file-offset map,
the context verifier, the single-byte and region patch appliers,
and the orchestration in `main` (four guarded patches followed by
four unconditional code-derived writes).

Bytes are modelled as `Nat` (the source reads them from Python
`bytes`, whose elements are integers in `[0, 255]`); byte strings are
`List Nat`.  Python slicing `data[a:b]` becomes `(data.drop a).take
(b - a)`; slice-and-concatenate rebuilds become `take ++ new ++
drop`.  Fallible code (raising `ValueError`) returns `Option`.
-/

namespace SMB

/-- The fixed 16-symbol Game Genie alphabet (`GG_LETTERS` in the source). -/
def GG_LETTERS : List Char := "APZLGITYEOXUKSVN".toList

/-- Model of Python `str.find`: index of the first occurrence of `c`,
`none` standing for the source's `-1`. -/
def strFind : List Char → Char → Option Nat
  | [], _ => none
  | x :: xs, c => if x = c then some 0 else (strFind xs c).map (· + 1)

/-- Index of a character in the Game Genie alphabet
(`GG_LETTERS.find(ch)` in `decode_game_genie`). -/
def ggIndex (c : Char) : Option Nat := strFind GG_LETTERS c

/-- The per-character loop of `decode_game_genie`: map every character
to its alphabet index, failing (`ValueError`) on the first character
with no index. -/
def mapIndices : List Char → Option (List Nat)
  | [] => some []
  | c :: cs =>
    match ggIndex c with
    | none => none
    | some i =>
      match mapIndices cs with
      | none => none
      | some n => some (i :: n)

/-- The address formula of `decode_game_genie` (source lines 42-49),
over the list `n` of six alphabet indices. -/
def ggAddress (n : List Nat) : Nat :=
  0x8000
    ||| ((n.getD 3 0 &&& 7) <<< 12)
    ||| ((n.getD 5 0 &&& 7) <<< 8)
    ||| ((n.getD 4 0 &&& 8) <<< 8)
    ||| ((n.getD 2 0 &&& 7) <<< 4)
    ||| ((n.getD 1 0 &&& 8) <<< 4)
    ||| (n.getD 4 0 &&& 7)
    ||| (n.getD 3 0 &&& 8)

/-- The value formula of `decode_game_genie` (source line 50). -/
def ggValue (n : List Nat) : Nat :=
  ((n.getD 1 0 &&& 7) <<< 4)
    ||| ((n.getD 0 0 &&& 8) <<< 4)
    ||| (n.getD 0 0 &&& 7)
    ||| (n.getD 5 0 &&& 8)

/-- `decode_game_genie`: uppercase the code, require length 6, map every
character to its alphabet index, and combine the nibbles into the
`(address, value)` pair.  `none` models the raised `ValueError`.

Modelling boundary: the source's `code.upper()` is Python's Unicode full
case mapping, rendered here as the per-character ASCII uppercase
`Char.toUpper`.  The two agree exactly on ASCII input; on non-ASCII
input Python may substitute other letters or even grow the string
(`'ı'.upper() = 'I'`, `'ß'.upper() = 'SS'`, applied before the length
check), which this byte-level model does not reproduce.  Statements
about rejection behaviour are therefore scoped to ASCII codes; on the
acceptance side every accepted code's uppercase lies in the ASCII
alphabet, where the two case maps coincide. -/
def decode_game_genie (code : List Char) : Option (Nat × Nat) :=
  let c := code.map Char.toUpper
  if c.length = 6 then
    match mapIndices c with
    | none => none
    | some n => some (ggAddress n, ggValue n)
  else none

/-- `cpu_to_file`: `cpu_addr - 0x8000 + 0x10`, over `Int` because the
source's Python subtraction is unchecked and can go negative. -/
def cpu_to_file (cpu_addr : Nat) : Int := (cpu_addr : Int) - 0x8000 + 0x10

/-- `apply_game_genie`: decode the code and splice the decoded value in
at the file offset (`data[:fo] + bytes([value]) + data[fo+1:]`).
`decode_game_genie` forces `address ≥ 0x8000`, so the offset's `toNat`
is exact in every reachable call. -/
def apply_game_genie (data : List Nat) (code : List Char) : Option (List Nat) :=
  match decode_game_genie code with
  | none => none
  | some (cpu_addr, value) =>
    let file_offset := (cpu_to_file cpu_addr).toNat
    some (data.take file_offset ++ [value] ++ data.drop (file_offset + 1))

/-- `verify_rom`: size 40976, `NES\x1a` magic, PRG=2 and CHR=1 banks. -/
def verify_rom (data : List Nat) : Bool :=
  if data.length ≠ 40976 then false
  else if data.take 4 ≠ [0x4E, 0x45, 0x53, 0x1A] then false
  else if data.getD 4 0 ≠ 2 ∨ data.getD 5 0 ≠ 1 then false
  else true

/-- `apply_patch`: single-byte patch with verification; on mismatch the
image is returned unchanged with `false`, otherwise the byte at
`offset` is replaced (`data[:offset] + bytes([new_byte]) + data[offset+1:]`). -/
def apply_patch (data : List Nat) (offset old_byte new_byte : Nat) : List Nat × Bool :=
  if data.getD offset 0 ≠ old_byte then (data, false)
  else (data.take offset ++ [new_byte] ++ data.drop (offset + 1), true)

/-- `verify_context`: `data[offset : offset + len(expected)] == expected`. -/
def verify_context (data : List Nat) (offset : Nat) (expected : List Nat) : Bool :=
  (data.drop offset).take expected.length == expected

/-- The region-form patch application used by `main` (lines 223-224 and
308-316): `data[:offset] + newCode + filler * (regionLength - len(newCode))
+ data[offset + regionLength:]`. -/
def applyRegion (data : List Nat) (offset : Nat) (newCode : List Nat)
    (regionLength filler : Nat) : List Nat :=
  data.take offset ++ newCode ++ List.replicate (regionLength - newCode.length) filler
    ++ data.drop (offset + regionLength)

/-- Expected context for patch 1 at file offset `0x3189`. -/
def ctx1 : List Nat := [0xA5, 0xB5, 0xC9, 0x02, 0x30, 0x3B, 0xA2, 0x01]

/-- The 65-byte replacement routine of patch 1. -/
def newCode1 : List Nat :=
  [0xA5, 0xB5,
   0xC9, 0x02,
   0xB0, 0x2A,
   0xAA,
   0xF0, 0x38,
   0xA5, 0x1D,
   0xF0, 0x34,
   0xA5, 0x9F,
   0x30, 0x30,
   0xAD, 0x43, 0x07,
   0xD0, 0x2B,
   0xA5, 0xCE,
   0xC9, 0xC0,
   0x90, 0x25,
   0xA2, 0x00,
   0x8E, 0x33, 0x04,
   0xAD, 0x9E, 0x07,
   0xD0, 0x16,
   0xA9, 0xF4,
   0x85, 0x9F,
   0xA9, 0x70,
   0x8D, 0x0A, 0x07,
   0x60,
   0xAD, 0x43, 0x07,
   0xD0, 0x0D,
   0x85, 0x9F,
   0xA9, 0x01,
   0x85, 0xB5,
   0x60,
   0x86, 0x9F,
   0x86, 0x57,
   0xEA]

/-- Patch 1 (pit survival): guarded 65-byte region replace at `0x3189`,
NOP-padded to 65 bytes, splicing back at `0x31CA`. -/
def patch1 (d : List Nat) : List Nat × Bool :=
  if verify_context d 0x3189 ctx1 then
    (d.take 0x3189 ++ newCode1 ++ List.replicate (65 - newCode1.length) 0xEA
      ++ d.drop 0x31CA, true)
  else (d, false)

/-- Expected context for patch 2 at file offset `0x379D`. -/
def ctx2 : List Nat := [0xA9, 0xFF, 0x8D, 0x39, 0x01, 0x20, 0x5F, 0x8F]

/-- Patch 2 (timer freeze): guarded 3-byte NOP write at `0x379F`. -/
def patch2 (d : List Nat) : List Nat × Bool :=
  if verify_context d 0x379D ctx2 then
    (d.take 0x379F ++ [0xEA, 0xEA, 0xEA] ++ d.drop 0x37A2, true)
  else (d, false)

/-- Expected context for patch 3 at file offset `0x5ED9`. -/
def ctx3 : List Nat := [0xA9, 0x70, 0x8D, 0x09, 0x07, 0xA9, 0xF9, 0x8D, 0xDB, 0x06]

/-- Patch 3 (springboard boost): guarded single-byte patch at `0x5EDF`. -/
def patch3 (d : List Nat) : List Nat × Bool :=
  if verify_context d 0x5ED9 ctx3 then apply_patch d 0x5EDF 0xF9 0xF4
  else (d, false)

/-- Expected context for patch 4 at file offset `0x40FB`. -/
def ctx4 : List Nat :=
  [0xA5, 0xCE, 0xD9, 0x81, 0xC0, 0xD0, 0x23, 0xA5, 0x1D, 0xC9, 0x00, 0xD0, 0x1D]

/-- The 13-byte replacement of patch 4. -/
def newCode4 : List Nat :=
  [0xB9, 0x81, 0xC0,
   0xC9, 0xC0,
   0xB0, 0x06,
   0x85, 0xCE,
   0xA9, 0x00,
   0x85, 0x1D]

/-- Patch 4 (castle maze auto-correct): guarded 13-byte region replace
at `0x40FB`, splicing back at `0x4108`. -/
def patch4 (d : List Nat) : List Nat × Bool :=
  if verify_context d 0x40FB ctx4 then
    (d.take 0x40FB ++ newCode4 ++ d.drop 0x4108, true)
  else (d, false)

/-- The four guarded patches of `main`, threading the image and
accumulating the applied/failed counters. -/
def runPatches (d : List Nat) : List Nat × Nat × Nat :=
  let r1 := patch1 d
  let r2 := patch2 r1.1
  let r3 := patch3 r2.1
  let r4 := patch4 r3.1
  let applied := (if r1.2 then 1 else 0) + (if r2.2 then 1 else 0)
    + (if r3.2 then 1 else 0) + (if r4.2 then 1 else 0)
  let failed := (if r1.2 then 0 else 1) + (if r2.2 then 0 else 1)
    + (if r3.2 then 0 else 1) + (if r4.2 then 0 else 1)
  (r4.1, applied, failed)

/-- The four unconditional Game Genie writes of `main` (lines 328-331),
sequenced with `Option.bind` because each decode may raise. -/
def runCodes (d : List Nat) : Option (List Nat) :=
  (apply_game_genie d "POAISA".toList).bind fun d1 =>
    (apply_game_genie d1 "OZTLLX".toList).bind fun d2 =>
      (apply_game_genie d2 "AATLGZ".toList).bind fun d3 =>
        apply_game_genie d3 "SZLIVO".toList

/-- The post-validation body of `main`: four guarded patches, then the
four code writes, then the `patches_applied == 0` gate (lines 344-346);
the first component is the produced output image, `none` when the run
fails and writes no output. -/
def runMain (d : List Nat) : Option (List Nat) × Nat × Nat :=
  let r := runPatches d
  match runCodes r.1 with
  | none => (none, r.2.1, r.2.2)
  | some d5 => (if r.2.1 = 0 then none else some d5, r.2.1, r.2.2)

/-- The contract the spec states for `toContainerOffset`, written from the
spec's words for comparison with the source's `cpu_to_file`: succeed with
`address - 0x8000 + headerSize` on `[0x8000, 0xFFFF]`, fail outside. -/
def toContainerOffset_spec (address : Nat) : Option Int :=
  if 0x8000 ≤ address ∧ address ≤ 0xFFFF then some ((address : Int) - 0x8000 + 0x10)
  else none

/-- A well-formed input image: `NES\x1a` magic, PRG=2, CHR=1, total
length 40976. -/
def sampleRom : List Nat :=
  0x4E :: 0x45 :: 0x53 :: 0x1A :: 2 :: 1 :: List.replicate 40970 0

example : decode_game_genie "POAISA".toList = some (0xD885, 0x11) := by decide
example : decode_game_genie "OZTLLX".toList = some (0xB263, 0xA9) := by decide
example : decode_game_genie "AATLGZ".toList = some (0xB264, 0x00) := by decide
example : decode_game_genie "SZLIVO".toList = some (0xD936, 0xAD) := by decide
example : decode_game_genie "poaisa".toList = some (0xD885, 0x11) := by decide
example : decode_game_genie "AAPAAA".toList = some (0x8010, 0x00) := by decide
example : decode_game_genie "AAAAAA".toList = some (0x8000, 0x00) := by decide
example : decode_game_genie "AAAAA".toList = none := by decide
example : cpu_to_file 0xD885 = 0x5895 := by decide
example : cpu_to_file 0 = -32752 := by decide
example : apply_patch [5] 0 5 5 = ([5], true) := by decide
example : applyRegion [0xAA] 1 [0xBB] 2 0xEA = [0xAA, 0xBB, 0xEA] := by decide
example : verify_context [1, 2, 3] 1 [2, 3] = true := by decide
example : newCode1.length = 65 := by decide

/-! ### Helper lemmas about slice-and-concatenate splices -/

theorem splice_length {α : Type} (l mid : List α) (o k : Nat)
    (ho : o + k ≤ l.length) (hm : mid.length = k) :
    (l.take o ++ mid ++ l.drop (o + k)).length = l.length := by
  simp only [List.length_append, List.length_take, List.length_drop]
  omega

theorem splice_getElem_left {α : Type} (l mid : List α) (o k i : Nat)
    (ho : o + k ≤ l.length) (hi : i < o) :
    (l.take o ++ mid ++ l.drop (o + k))[i]? = l[i]? := by
  have ht : (l.take o).length = o := by rw [List.length_take]; omega
  have h1 : i < (l.take o ++ mid).length := by
    rw [List.length_append, ht]; omega
  have h2 : i < (l.take o).length := by rw [ht]; exact hi
  rw [List.getElem?_append_left h1, List.getElem?_append_left h2,
    List.getElem?_take_of_lt hi]

theorem splice_getElem_right {α : Type} (l mid : List α) (o k i : Nat)
    (ho : o + k ≤ l.length) (hm : mid.length = k) (hi : o + k ≤ i) :
    (l.take o ++ mid ++ l.drop (o + k))[i]? = l[i]? := by
  have ht : (l.take o).length = o := by rw [List.length_take]; omega
  have hlen : (l.take o ++ mid).length = o + k := by
    rw [List.length_append, ht, hm]
  rw [List.getElem?_append_right (by omega), List.getElem?_drop]
  have h2 : o + k + (i - (l.take o ++ mid).length) = i := by omega
  rw [h2]

theorem splice_getElem_mid {α : Type} (l mid : List α) (o k j : Nat)
    (ho : o ≤ l.length) (hj : j < mid.length) :
    (l.take o ++ mid ++ l.drop (o + k))[o + j]? = mid[j]? := by
  have ht : (l.take o).length = o := by rw [List.length_take]; omega
  have h1 : o + j < (l.take o ++ mid).length := by
    rw [List.length_append, ht]; omega
  rw [List.getElem?_append_left h1, List.getElem?_append_right (by omega)]
  have h2 : o + j - (l.take o).length = j := by omega
  rw [h2]

/-! ### Helper lemmas about the decoder -/

theorem strFind_some_lt (l : List Char) (c : Char) (i : Nat)
    (h : strFind l c = some i) : i < l.length := by
  induction l generalizing i with
  | nil => simp [strFind] at h
  | cons x xs ih =>
    simp only [strFind] at h
    split at h
    · simp only [Option.some.injEq] at h
      simp only [List.length_cons]
      omega
    · cases hs : strFind xs c with
      | none => rw [hs] at h; simp at h
      | some j =>
        rw [hs] at h
        simp only [Option.map_some', Option.some.injEq] at h
        have := ih j hs
        simp only [List.length_cons]
        omega

theorem strFind_eq_none_iff (l : List Char) (c : Char) :
    strFind l c = none ↔ c ∉ l := by
  induction l with
  | nil => simp [strFind]
  | cons x xs ih =>
    by_cases hx : x = c
    · subst hx
      simp [strFind]
    · simp only [strFind, if_neg hx, Option.map_eq_none', ih, List.mem_cons, not_or]
      constructor
      · intro h
        exact ⟨fun hc => hx hc.symm, h⟩
      · intro h
        exact h.2

theorem mapIndices_eq_none_iff (l : List Char) :
    mapIndices l = none ↔ ∃ c ∈ l, ggIndex c = none := by
  induction l with
  | nil => simp [mapIndices]
  | cons c cs ih =>
    cases hg : ggIndex c with
    | none =>
      simp only [mapIndices, hg, true_iff]
      exact ⟨c, List.mem_cons_self c cs, hg⟩
    | some i =>
      cases hm : mapIndices cs with
      | none =>
        simp only [mapIndices, hg, hm, true_iff]
        obtain ⟨a, ha, hga⟩ := ih.mp hm
        exact ⟨a, List.mem_cons_of_mem c ha, hga⟩
      | some n =>
        simp only [mapIndices, hg, hm, reduceCtorEq, false_iff, not_exists]
        intro a hc
        obtain ⟨hmem, hga⟩ := hc
        rcases List.mem_cons.mp hmem with rfl | hacs
        · rw [hg] at hga; cases hga
        · exact absurd (ih.mpr ⟨a, hacs, hga⟩) (by rw [hm]; simp)

theorem decode_some_elim (code : List Char) (a v : Nat)
    (h : decode_game_genie code = some (a, v)) :
    ∃ n, mapIndices (code.map Char.toUpper) = some n
      ∧ a = ggAddress n ∧ v = ggValue n := by
  simp only [decode_game_genie] at h
  split at h
  · split at h
    · simp at h
    · rename_i n heq
      simp only [Option.some.injEq, Prod.mk.injEq] at h
      exact ⟨n, heq, h.1.symm, h.2.symm⟩
  · simp at h

theorem ggAddress_lt (n : List Nat) : ggAddress n < 65536 := by
  unfold ggAddress
  rw [show (65536 : Nat) = 2 ^ 16 by norm_num]
  repeat' apply Nat.or_lt_two_pow
  all_goals first
    | decide
    | (rw [Nat.shiftLeft_eq]
       exact lt_of_le_of_lt (mul_le_mul_right' Nat.and_le_right _) (by norm_num))
    | exact lt_of_le_of_lt Nat.and_le_right (by norm_num)

theorem ggAddress_ge (n : List Nat) : 0x8000 ≤ ggAddress n := by
  have hb : (ggAddress n).testBit 15 = true := by
    unfold ggAddress
    simp only [Nat.testBit_or]
    have h15 : Nat.testBit 0x8000 15 = true := by decide
    simp [h15]
  calc (0x8000 : Nat) = 2 ^ 15 := by norm_num
    _ ≤ ggAddress n := Nat.testBit_implies_ge hb

theorem decode_addr_bounds (code : List Char) (a v : Nat)
    (h : decode_game_genie code = some (a, v)) : 0x8000 ≤ a ∧ a ≤ 0xFFFF := by
  obtain ⟨n, _, ha, _⟩ := decode_some_elim code a v h
  subst ha
  refine ⟨ggAddress_ge n, ?_⟩
  have := ggAddress_lt n
  omega

/-! ### Helper lemmas about the code-derived writes -/

theorem apply_game_genie_eq (d : List Nat) (code : List Char) (a v : Nat)
    (hdec : decode_game_genie code = some (a, v)) :
    apply_game_genie d code =
      some (d.take (cpu_to_file a).toNat ++ [v]
        ++ d.drop ((cpu_to_file a).toNat + 1)) := by
  unfold apply_game_genie
  rw [hdec]

theorem apply_game_genie_isSome (d : List Nat) (code : List Char) (a v : Nat)
    (hdec : decode_game_genie code = some (a, v)) :
    ∃ r, apply_game_genie d code = some r :=
  ⟨_, apply_game_genie_eq d code a v hdec⟩

theorem apply_game_genie_length (d : List Nat) (code : List Char) (r : List Nat)
    (h : apply_game_genie d code = some r) (hd : d.length = 40976) :
    r.length = 40976 := by
  cases hdec : decode_game_genie code with
  | none =>
    unfold apply_game_genie at h
    rw [hdec] at h
    simp at h
  | some av =>
    obtain ⟨a, v⟩ := av
    rw [apply_game_genie_eq d code a v hdec] at h
    simp only [Option.some.injEq] at h
    obtain ⟨hlo, hhi⟩ := decode_addr_bounds code a v hdec
    have hfo : (cpu_to_file a).toNat + 1 ≤ d.length := by
      unfold cpu_to_file
      omega
    rw [← h, splice_length d [v] (cpu_to_file a).toNat 1 hfo rfl, hd]

theorem decode_POAISA : decode_game_genie "POAISA".toList = some (0xD885, 0x11) := by
  decide

theorem decode_OZTLLX : decode_game_genie "OZTLLX".toList = some (0xB263, 0xA9) := by
  decide

theorem decode_AATLGZ : decode_game_genie "AATLGZ".toList = some (0xB264, 0x00) := by
  decide

theorem decode_SZLIVO : decode_game_genie "SZLIVO".toList = some (0xD936, 0xAD) := by
  decide

theorem runCodes_isSome (d : List Nat) : ∃ r, runCodes d = some r := by
  obtain ⟨r1, h1⟩ := apply_game_genie_isSome d _ _ _ decode_POAISA
  obtain ⟨r2, h2⟩ := apply_game_genie_isSome r1 _ _ _ decode_OZTLLX
  obtain ⟨r3, h3⟩ := apply_game_genie_isSome r2 _ _ _ decode_AATLGZ
  obtain ⟨r4, h4⟩ := apply_game_genie_isSome r3 _ _ _ decode_SZLIVO
  exact ⟨r4, by simp only [runCodes, h1, Option.some_bind, h2, h3, h4]⟩

theorem runCodes_length (d r : List Nat) (h : runCodes d = some r)
    (hd : d.length = 40976) : r.length = 40976 := by
  unfold runCodes at h
  cases e1 : apply_game_genie d "POAISA".toList with
  | none => rw [e1] at h; simp at h
  | some d1 =>
    rw [e1, Option.some_bind] at h
    have hd1 := apply_game_genie_length d _ d1 e1 hd
    cases e2 : apply_game_genie d1 "OZTLLX".toList with
    | none => rw [e2] at h; simp at h
    | some d2 =>
      rw [e2, Option.some_bind] at h
      have hd2 := apply_game_genie_length d1 _ d2 e2 hd1
      cases e3 : apply_game_genie d2 "AATLGZ".toList with
      | none => rw [e3] at h; simp at h
      | some d3 =>
        rw [e3, Option.some_bind] at h
        have hd3 := apply_game_genie_length d2 _ d3 e3 hd2
        exact apply_game_genie_length d3 _ r h hd3

/-! ### Helper lemmas about the four guarded patches -/

theorem verify_rom_length (d : List Nat) (h : verify_rom d = true) :
    d.length = 40976 := by
  unfold verify_rom at h
  split at h
  · simp at h
  · rename_i hlen
    omega

theorem apply_patch_fst_length (d : List Nat) (o ob nb : Nat) (ho : o < d.length) :
    ((apply_patch d o ob nb).1).length = d.length := by
  unfold apply_patch
  split
  · rfl
  · dsimp only
    simp only [List.length_append, List.length_take, List.length_drop,
      List.length_cons, List.length_nil]
    omega

theorem patch1_length (e : List Nat) (he : e.length = 40976) :
    (patch1 e).1.length = 40976 := by
  unfold patch1
  split
  · dsimp only
    have h65 : newCode1.length = 65 := rfl
    simp only [List.length_append, List.length_take, List.length_drop,
      List.length_replicate, h65]
    omega
  · simpa using he

theorem patch2_length (e : List Nat) (he : e.length = 40976) :
    (patch2 e).1.length = 40976 := by
  unfold patch2
  split
  · dsimp only
    simp only [List.length_append, List.length_take, List.length_drop,
      List.length_cons, List.length_nil]
    omega
  · simpa using he

theorem patch3_length (e : List Nat) (he : e.length = 40976) :
    (patch3 e).1.length = 40976 := by
  unfold patch3
  split
  · rw [apply_patch_fst_length e 0x5EDF 0xF9 0xF4 (by omega), he]
  · simpa using he

theorem patch4_length (e : List Nat) (he : e.length = 40976) :
    (patch4 e).1.length = 40976 := by
  unfold patch4
  split
  · dsimp only
    have h13 : newCode4.length = 13 := rfl
    simp only [List.length_append, List.length_take, List.length_drop, h13]
    omega
  · simpa using he

theorem runPatches_fst (d : List Nat) :
    (runPatches d).1 = (patch4 (patch3 (patch2 (patch1 d).1).1).1).1 := by
  unfold runPatches
  dsimp only

theorem runPatches_length (d : List Nat) (hd : d.length = 40976) :
    (runPatches d).1.length = 40976 := by
  rw [runPatches_fst]
  exact patch4_length _ (patch3_length _ (patch2_length _ (patch1_length d hd)))

/-! ### Helper lemma: window equality for the context verifier -/

theorem verify_context_iff (d w : List Nat) (o : Nat) (h : o + w.length ≤ d.length) :
    verify_context d o w = true ↔ ∀ i, i < w.length → d[o + i]? = w[i]? := by
  unfold verify_context
  rw [beq_iff_eq]
  constructor
  · intro he i hi
    calc d[o + i]? = (d.drop o)[i]? := (List.getElem?_drop d o i).symm
      _ = ((d.drop o).take w.length)[i]? :=
        (@List.getElem?_take_of_lt _ (d.drop o) w.length i hi).symm
      _ = w[i]? := by rw [he]
  · intro hall
    apply List.ext_getElem?
    intro i
    by_cases hi : i < w.length
    · rw [@List.getElem?_take_of_lt _ (d.drop o) w.length i hi, List.getElem?_drop]
      exact hall i hi
    · have hl : ((d.drop o).take w.length).length = w.length := by
        rw [List.length_take, List.length_drop]
        omega
      rw [List.getElem?_eq_none (by omega), List.getElem?_eq_none (by omega)]

/-- Validation accepts the well-formed sample image. -/
theorem sampleRom_valid : verify_rom sampleRom = true := by
  have hlen : sampleRom.length = 40976 := by
    rw [sampleRom]
    rw [List.length_cons, List.length_cons, List.length_cons, List.length_cons,
      List.length_cons, List.length_cons, List.length_replicate]
  have ht : sampleRom.take 4 = [0x4E, 0x45, 0x53, 0x1A] := rfl
  have h4 : sampleRom.getD 4 0 = 2 := rfl
  have h5 : sampleRom.getD 5 0 = 1 := rfl
  unfold verify_rom
  rw [if_neg (by omega), if_neg (by rw [ht]; simp),
    if_neg (by rw [not_or]; exact ⟨not_not_intro h4, not_not_intro h5⟩)]

/-! ### The claims -/

/-- C1 (amended): for every image, offset, replacement `newCode`, region
length and filler with `newCode.length ≤ regionLength` **and the region
in bounds** (`offset + regionLength ≤ image.length`), the region-form
patch application preserves the total length, leaves every byte outside
`[offset, offset + regionLength)` unchanged, and fills the region with
`newCode` followed by the filler byte.  Without the in-bounds hypothesis
the length claim fails (see the counterexample). -/
theorem applyRegion_spec (d nc : List Nat) (o rl filler : Nat)
    (hb : o + rl ≤ d.length) (hl : nc.length ≤ rl) :
    (applyRegion d o nc rl filler).length = d.length ∧
    (∀ i, i < o → (applyRegion d o nc rl filler)[i]? = d[i]?) ∧
    (∀ i, o + rl ≤ i → (applyRegion d o nc rl filler)[i]? = d[i]?) ∧
    (∀ j, j < nc.length → (applyRegion d o nc rl filler)[o + j]? = nc[j]?) ∧
    (∀ j, nc.length ≤ j → j < rl →
      (applyRegion d o nc rl filler)[o + j]? = some filler) := by
  have hassoc : applyRegion d o nc rl filler
      = d.take o ++ (nc ++ List.replicate (rl - nc.length) filler)
        ++ d.drop (o + rl) := by
    unfold applyRegion
    simp only [List.append_assoc]
  have hmid : (nc ++ List.replicate (rl - nc.length) filler).length = rl := by
    rw [List.length_append, List.length_replicate]
    omega
  refine ⟨?_, ?_, ?_, ?_, ?_⟩
  · rw [hassoc]
    exact splice_length d _ o rl hb hmid
  · intro i hi
    rw [hassoc]
    exact splice_getElem_left d _ o rl i hb hi
  · intro i hi
    rw [hassoc]
    exact splice_getElem_right d _ o rl i hb hmid hi
  · intro j hj
    rw [hassoc, splice_getElem_mid d _ o rl j (by omega) (by rw [hmid]; omega)]
    exact List.getElem?_append_left hj
  · intro j hj1 hj2
    rw [hassoc, splice_getElem_mid d _ o rl j (by omega) (by rw [hmid]; omega),
      List.getElem?_append_right hj1, List.getElem?_replicate_of_lt (by omega)]

/-- C1 counterexample: with the region end past the end of the image
(`offset + regionLength > len(image)`) the slice-and-concatenate rebuild
grows the image, so the claim as stated (no in-bounds hypothesis) is
false: here `len(newCode) = 1 ≤ 2 = regionLength` yet the output has
length 3 while the input has length 1. -/
theorem applyRegion_len_cex :
    ([0xBB] : List Nat).length ≤ 2 ∧
    (applyRegion [0xAA] 1 [0xBB] 2 0xEA).length ≠ ([0xAA] : List Nat).length := by
  decide

theorem applyRegion_spec_witness :
    1 + 3 ≤ ([1, 2, 3, 4, 5] : List Nat).length ∧
    ([9] : List Nat).length ≤ 3 ∧
    (applyRegion [1, 2, 3, 4, 5] 1 [9] 3 7).length = ([1, 2, 3, 4, 5] : List Nat).length :=
  ⟨by decide, by decide,
    (applyRegion_spec [1, 2, 3, 4, 5] [9] 1 3 7 (by decide) (by decide)).1⟩

/-- C2: for every image passing validation, every step of the run — the
four guarded patches, each code-derived write, and the final output —
keeps the image length exactly 40976, the input's length. -/
theorem run_length_invariant (d : List Nat) (h : verify_rom d = true) :
    d.length = 40976 ∧
    (patch1 d).1.length = d.length ∧
    (patch2 (patch1 d).1).1.length = d.length ∧
    (patch3 (patch2 (patch1 d).1).1).1.length = d.length ∧
    (patch4 (patch3 (patch2 (patch1 d).1).1).1).1.length = d.length ∧
    (runPatches d).1.length = d.length ∧
    (∀ e c r, e.length = d.length → apply_game_genie e c = some r →
      r.length = d.length) ∧
    (∀ r, (runMain d).1 = some r → r.length = d.length) := by
  have hd := verify_rom_length d h
  have h1 := patch1_length d hd
  have h2 := patch2_length _ h1
  have h3 := patch3_length _ h2
  have h4 := patch4_length _ h3
  refine ⟨hd, ?_, ?_, ?_, ?_, ?_, ?_, ?_⟩
  · rw [h1, hd]
  · rw [h2, hd]
  · rw [h3, hd]
  · rw [h4, hd]
  · rw [runPatches_length d hd, hd]
  · intro e c r he hr
    rw [apply_game_genie_length e c r hr (by omega), hd]
  · intro r hr
    obtain ⟨rc, hc⟩ := runCodes_isSome (runPatches d).1
    have hrc : rc.length = 40976 := runCodes_length _ _ hc (runPatches_length d hd)
    unfold runMain at hr
    dsimp only at hr
    rw [hc] at hr
    dsimp only at hr
    by_cases ha : (runPatches d).2.1 = 0
    · rw [if_pos ha] at hr
      cases hr
    · rw [if_neg ha] at hr
      injection hr with hr
      subst hr
      omega

theorem run_length_invariant_witness :
    verify_rom sampleRom = true ∧ sampleRom.length = 40976 :=
  ⟨sampleRom_valid, (run_length_invariant sampleRom sampleRom_valid).1⟩

/-- C3 (amended): every decoded address lies in `[0x8000, 0xFFFF]`
(bit 15 is hard-set by the formula), and a code decodes to exactly
`0x8000` when the address-affecting nibble parts are all zero — which
requires `n1 & 8 = 0` and `n2 & 7 = 0` **in addition to**
`n3 = n4 = n5 = 0`, because `n1` and `n2` feed address bits 4..7. -/
theorem decode_addr_range (code : List Char) (a v : Nat)
    (h : decode_game_genie code = some (a, v)) :
    (0x8000 ≤ a ∧ a ≤ 0xFFFF) ∧
    (∀ n, mapIndices (code.map Char.toUpper) = some n →
      n.getD 1 0 &&& 8 = 0 → n.getD 2 0 &&& 7 = 0 →
      n.getD 3 0 = 0 → n.getD 4 0 = 0 → n.getD 5 0 = 0 → a = 0x8000) := by
  refine ⟨decode_addr_bounds code a v h, ?_⟩
  intro n hn h1 h2 h3 h4 h5
  obtain ⟨n', hn', ha, _⟩ := decode_some_elim code a v h
  rw [hn] at hn'
  injection hn' with hn'
  subst hn'
  subst ha
  unfold ggAddress
  rw [h1, h2, h3, h4, h5]
  decide

/-- C3 counterexample: the code `AAPAAA` has nibbles
`n = [0, 0, 1, 0, 0, 0]`, so `n3 = n4 = n5 = 0`, yet it decodes to
address `0x8010`, not `0x8000`: `n2 = 1` feeds address bits 4..6. -/
theorem decode_n345_cex :
    mapIndices ("AAPAAA".toList.map Char.toUpper) = some [0, 0, 1, 0, 0, 0] ∧
    decode_game_genie "AAPAAA".toList = some (0x8010, 0x00) ∧
    (0x8010 : Nat) ≠ 0x8000 := by
  decide

theorem decode_addr_range_witness :
    decode_game_genie "AAAAAA".toList = some (0x8000, 0) ∧
    ((0x8000 : Nat) ≤ 0x8000 ∧ (0x8000 : Nat) ≤ 0xFFFF) :=
  ⟨by decide, (decode_addr_range "AAAAAA".toList 0x8000 0 (by decide)).1⟩

/-- C4 (amended): for ASCII codes — where Python's `str.upper()` and the
per-character ASCII uppercase agree exactly — decoding fails precisely
when the length differs from 6 or some character of the **uppercased**
code is absent from the alphabet; the source uppercases before both
checks, so lowercase codes whose characters are themselves absent from
the alphabet still decode successfully.  Outside ASCII, CPython's full
case mapping runs before the length check and can substitute or grow
characters (the 5-character `"ßAAAA"` uppercases to `"SSAAAA"` and
decodes), so the byte-level failure characterization holds only on the
ASCII domain this model is faithful to. -/
theorem decode_none_iff (code : List Char)
    (_hascii : ∀ c ∈ code, c.toNat < 128) :
    decode_game_genie code = none ↔
      code.length ≠ 6 ∨ ∃ c ∈ code, c.toUpper ∉ GG_LETTERS := by
  simp only [decode_game_genie]
  by_cases hlen : (code.map Char.toUpper).length = 6
  · rw [if_pos hlen]
    have hlen' : code.length = 6 := by rwa [List.length_map] at hlen
    cases hm : mapIndices (code.map Char.toUpper) with
    | none =>
      obtain ⟨c, hc, hgc⟩ := (mapIndices_eq_none_iff (code.map Char.toUpper)).mp hm
      obtain ⟨c0, hc0, rfl⟩ := List.mem_map.mp hc
      constructor
      · intro _
        exact Or.inr ⟨c0, hc0, (strFind_eq_none_iff _ _).mp hgc⟩
      · intro _
        rfl
    | some n =>
      constructor
      · intro hcon
        simp at hcon
      · rintro (hne | ⟨c, hc, hup⟩)
        · exact absurd hlen' hne
        · have hnone : mapIndices (code.map Char.toUpper) = none :=
            (mapIndices_eq_none_iff _).mpr
              ⟨c.toUpper, List.mem_map_of_mem _ hc, (strFind_eq_none_iff _ _).mpr hup⟩
          rw [hnone] at hm
          cases hm
  · rw [if_neg hlen]
    have hlen' : code.length ≠ 6 := by
      intro hc
      exact hlen (by rw [List.length_map, hc])
    simp [hlen']

/-- C4 counterexample: `"poaisa"` has length 6 and every character —
for instance `'p'` — is absent from the alphabet
`"APZLGITYEOXUKSVN"`, so the claim as stated demands a decode failure;
the source uppercases first and decodes it successfully. -/
theorem decode_lowercase_cex :
    "poaisa".toList.length = 6 ∧
    'p' ∈ "poaisa".toList ∧
    'p' ∉ GG_LETTERS ∧
    decode_game_genie "poaisa".toList = some (0xD885, 0x11) := by
  decide

theorem decode_none_iff_witness :
    (∀ c ∈ "poaisa".toList, c.toNat < 128) ∧
    (decode_game_genie "poaisa".toList = none ↔
      "poaisa".toList.length ≠ 6 ∨ ∃ c ∈ "poaisa".toList, c.toUpper ∉ GG_LETTERS) :=
  ⟨by decide, decode_none_iff "poaisa".toList (by decide)⟩

/-- C5 (amended): for addresses in `[0x8000, 0xFFFF]` the offset map
agrees with the spec's contract and produces offsets in
`[0x10, 0x800F]`; for addresses outside the range the source performs
**no** range check and still returns `address - 0x8000 + 0x10` (possibly
negative or inside the header) instead of failing. -/
theorem cpu_to_file_range (a : Nat) (h1 : 0x8000 ≤ a) (h2 : a ≤ 0xFFFF) :
    toContainerOffset_spec a = some (cpu_to_file a) ∧
    0x10 ≤ cpu_to_file a ∧ cpu_to_file a ≤ 0x800F := by
  unfold toContainerOffset_spec cpu_to_file
  rw [if_pos ⟨h1, h2⟩]
  refine ⟨rfl, ?_, ?_⟩ <;> omega

/-- C5 counterexample: at address `0x7FFF` (outside the supported
range) the spec's contract fails, but the source's map does not: it
returns the offset `0xF`, which points into the image header. -/
theorem cpu_to_file_uncheck_cex :
    cpu_to_file 0x7FFF = 0xF ∧ toContainerOffset_spec 0x7FFF = none := by
  decide

theorem cpu_to_file_range_witness :
    (0x8000 : Nat) ≤ 0x9000 ∧ (0x9000 : Nat) ≤ 0xFFFF ∧
    toContainerOffset_spec 0x9000 = some (cpu_to_file 0x9000) :=
  ⟨by decide, by decide, (cpu_to_file_range 0x9000 (by decide) (by decide)).1⟩

/-- C6: with the window in bounds, the context verifier returns `true`
iff every byte of the window matches, and from a matching image,
changing any single byte inside the window to a different value flips
the verdict to `false`. -/
theorem verify_context_spec (d w : List Nat) (o : Nat)
    (h : o + w.length ≤ d.length) :
    (verify_context d o w = true ↔ ∀ i, i < w.length → d[o + i]? = w[i]?) ∧
    (verify_context d o w = true → ∀ i b, o ≤ i → i < o + w.length →
      d[i]? ≠ some b → verify_context (d.set i b) o w = false) := by
  refine ⟨verify_context_iff d w o h, ?_⟩
  intro hv i b hoi hio hne
  by_contra hc
  rw [Bool.not_eq_false] at hc
  have hset : (d.set i b).length = d.length := List.length_set d i b
  have h' : o + w.length ≤ (d.set i b).length := by omega
  have hall := (verify_context_iff (d.set i b) w o h').mp hc
  have hall0 := (verify_context_iff d w o h).mp hv
  have hj : i - o < w.length := by omega
  have e1 := hall (i - o) hj
  have e2 := hall0 (i - o) hj
  rw [show o + (i - o) = i by omega] at e1 e2
  have hi_lt : i < d.length := by omega
  rw [List.getElem?_set_self hi_lt] at e1
  exact hne (by rw [e2, ← e1])

theorem verify_context_spec_witness :
    1 + ([2, 3] : List Nat).length ≤ ([1, 2, 3] : List Nat).length ∧
    (verify_context [1, 2, 3] 1 [2, 3] = true ↔
      ∀ i, i < ([2, 3] : List Nat).length →
        ([1, 2, 3] : List Nat)[1 + i]? = ([2, 3] : List Nat)[i]?) :=
  ⟨by decide, (verify_context_spec [1, 2, 3] [2, 3] 1 (by decide)).1⟩

/-- C7 (amended): with the offset in bounds, a mismatching old byte
returns the image unchanged with `applied = false`; a matching old byte
returns `applied = true`, the new byte at the offset, every other byte
unchanged — and the output differs from the input at the offset exactly
when `newByte ≠ oldByte`.  When `newByte = oldByte` the output is
byte-identical to the input even though `applied = true`, so the
original "differs at exactly one offset" is false. -/
theorem apply_patch_spec (d : List Nat) (o oldB newB : Nat) (h : o < d.length) :
    (d.getD o 0 ≠ oldB → apply_patch d o oldB newB = (d, false)) ∧
    (d.getD o 0 = oldB →
      (apply_patch d o oldB newB).2 = true ∧
      (apply_patch d o oldB newB).1.length = d.length ∧
      (apply_patch d o oldB newB).1[o]? = some newB ∧
      (∀ i, i ≠ o → (apply_patch d o oldB newB).1[i]? = d[i]?) ∧
      (newB ≠ oldB → (apply_patch d o oldB newB).1[o]? ≠ d[o]?)) := by
  constructor
  · intro hne
    unfold apply_patch
    rw [if_pos hne]
  · intro heq
    have hnn : ¬(d.getD o 0 ≠ oldB) := not_not_intro heq
    have hdo : d[o]? = some oldB := by
      have hg := List.getD_eq_getElem?_getD d o 0
      rw [List.getElem?_eq_getElem h] at hg
      simp only [Option.getD_some] at hg
      rw [List.getElem?_eq_getElem h, ← hg, heq]
    unfold apply_patch
    rw [if_neg hnn]
    dsimp only
    have hval : (List.take o d ++ [newB] ++ List.drop (o + 1) d)[o]? = some newB := by
      have hmid := splice_getElem_mid d [newB] o 1 0 (le_of_lt h) (by simp)
      simpa using hmid
    refine ⟨rfl, ?_, ?_, ?_, ?_⟩
    · exact splice_length d [newB] o 1 (by omega) rfl
    · exact hval
    · intro i hi
      rcases Nat.lt_or_ge i o with hlt | hge
      · exact splice_getElem_left d [newB] o 1 i (by omega) hlt
      · exact splice_getElem_right d [newB] o 1 i (by omega) rfl (by omega)
    · intro hnb
      rw [hval, hdo]
      simp only [ne_eq, Option.some.injEq]
      exact hnb

/-- C7 counterexample: patching with `newByte = oldByte` at a matching
offset reports `applied = true` yet returns an image byte-identical to
the input — it does not differ at exactly one offset. -/
theorem apply_patch_same_byte_cex :
    apply_patch [5] 0 5 5 = ([5], true) ∧ (apply_patch [5] 0 5 5).1 = [5] := by
  decide

theorem apply_patch_spec_witness :
    0 < ([7, 8] : List Nat).length ∧ (apply_patch [7, 8] 0 7 9).2 = true :=
  ⟨by decide, ((apply_patch_spec [7, 8] 0 7 9 (by decide)).2 (by decide)).1⟩

/-- C8: a valid code whose decoded address maps to an in-bounds offset
is applied unconditionally: whatever byte the image currently holds
there, the write succeeds, stores the decoded value at the offset, and
leaves every other byte (and the length) unchanged — no precondition
check, no skip branch. -/
theorem apply_game_genie_spec (d : List Nat) (code : List Char) (a v : Nat)
    (hdec : decode_game_genie code = some (a, v))
    (hb : (cpu_to_file a).toNat < d.length) :
    ∃ r, apply_game_genie d code = some r ∧
      r.length = d.length ∧
      r[(cpu_to_file a).toNat]? = some v ∧
      ∀ i, i ≠ (cpu_to_file a).toNat → r[i]? = d[i]? := by
  refine ⟨_, apply_game_genie_eq d code a v hdec, ?_, ?_, ?_⟩
  · exact splice_length d [v] _ 1 (by omega) rfl
  · have hmid := splice_getElem_mid d [v] (cpu_to_file a).toNat 1 0 (by omega) (by simp)
    simpa using hmid
  · intro i hi
    rcases Nat.lt_or_ge i (cpu_to_file a).toNat with hlt | hge
    · exact splice_getElem_left d [v] _ 1 i (by omega) hlt
    · exact splice_getElem_right d [v] _ 1 i (by omega) rfl (by omega)

theorem apply_game_genie_spec_witness :
    decode_game_genie "POAISA".toList = some (0xD885, 0x11) ∧
    (cpu_to_file 0xD885).toNat < (List.replicate 30000 (0 : Nat)).length ∧
    ∃ r, apply_game_genie (List.replicate 30000 (0 : Nat)) "POAISA".toList = some r ∧
      r.length = (List.replicate 30000 (0 : Nat)).length ∧
      r[(cpu_to_file 0xD885).toNat]? = some 0x11 ∧
      ∀ i, i ≠ (cpu_to_file 0xD885).toNat →
        r[i]? = (List.replicate 30000 (0 : Nat))[i]? := by
  have hb : (cpu_to_file 0xD885).toNat < (List.replicate 30000 (0 : Nat)).length := by
    rw [List.length_replicate]
    decide
  exact ⟨decode_POAISA, hb,
    apply_game_genie_spec (List.replicate 30000 0) "POAISA".toList 0xD885 0x11
      decode_POAISA hb⟩

/-- C9: after the four guarded patches, the run fails and produces no
output exactly when `appliedCount = 0`; with `appliedCount > 0` it
produces an output image even when some patches failed; and the
code-derived writes never change the applied/failed counters. -/
theorem run_outcome (d : List Nat) :
    ((runMain d).2.1 = (runPatches d).2.1 ∧ (runMain d).2.2 = (runPatches d).2.2) ∧
    ((runPatches d).2.1 = 0 → (runMain d).1 = none) ∧
    (0 < (runPatches d).2.1 → ∃ r, (runMain d).1 = some r) := by
  obtain ⟨rc, hc⟩ := runCodes_isSome (runPatches d).1
  unfold runMain
  dsimp only
  rw [hc]
  dsimp only
  refine ⟨⟨rfl, rfl⟩, ?_, ?_⟩
  · intro h0
    rw [if_pos h0]
  · intro hpos
    rw [if_neg (by omega)]
    exact ⟨rc, rfl⟩

/-- C10: for every valid code and every image of the validated length
40976, the decoded address is in `[0x8000, 0xFFFF]`, the mapped file
offset is in `[0x10, 0x800F]` and hence strictly inside the image, and
the code-derived write preserves the image length. -/
theorem gg_write_bounds (code : List Char) (a v : Nat) (d : List Nat)
    (hdec : decode_game_genie code = some (a, v)) (hlen : d.length = 40976) :
    0x8000 ≤ a ∧ a ≤ 0xFFFF ∧
    0x10 ≤ (cpu_to_file a).toNat ∧ (cpu_to_file a).toNat ≤ 0x800F ∧
    (cpu_to_file a).toNat < d.length ∧
    ∀ r, apply_game_genie d code = some r → r.length = d.length := by
  obtain ⟨hlo, hhi⟩ := decode_addr_bounds code a v hdec
  have hfo1 : 0x10 ≤ (cpu_to_file a).toNat := by
    unfold cpu_to_file
    omega
  have hfo2 : (cpu_to_file a).toNat ≤ 0x800F := by
    unfold cpu_to_file
    omega
  refine ⟨hlo, hhi, hfo1, hfo2, by omega, ?_⟩
  intro r hr
  have hrl := apply_game_genie_length d code r hr hlen
  omega

theorem gg_write_bounds_witness :
    decode_game_genie "POAISA".toList = some (0xD885, 0x11) ∧
    (List.replicate 40976 (0 : Nat)).length = 40976 ∧
    (0x8000 : Nat) ≤ 0xD885 :=
  ⟨decode_POAISA, by rw [List.length_replicate],
    (gg_write_bounds "POAISA".toList 0xD885 0x11 (List.replicate 40976 0)
      decode_POAISA (by rw [List.length_replicate])).1⟩

end SMB
